import Mathlib

/-!
Verification of the image-cache and clone-orchestration engine of the
cinder NFS drivers, as a shallow embedding of
`cinder/volume/drivers/netapp/nfs.py` and
`cinder/volume/nfs_vzhelezniakov.py`.

External collaborators (storage controller RPCs, the filesystem, the
capacity probe) are modelled as oracle arguments; Python exceptions are
modelled with `Except`; Python integers are `Nat`/`Int` and the float
arithmetic of the capacity computation is modelled exactly on `ℚ` with
`Int.floor` for the (nonnegative) `int()` truncations.
-/

/- ------------------------------------------------------------------
   Share selection (`nfs_vzhelezniakov.NFSDriver._select_share_for_volume`)
   ------------------------------------------------------------------ -/

/-- Embeds the `best_share` dict of `_select_share_for_volume`:
the `capacity` (available bytes per `_share_capacity`) and the
`mounted_on` mount point of one share. -/
structure ShareInfo where
  capacity : Int
  mounted_on : String
deriving DecidableEq

/-- Embeds the running-maximum loop of `_select_share_for_volume`:
for each probed share `v`, the best share is replaced when
`volume_info.capacity > size and best_share.capacity < volume_info.capacity`. -/
def selectLoop (size : Int) : List ShareInfo → ShareInfo → ShareInfo
  | [], best => best
  | v :: rest, best =>
      selectLoop size rest
        (if size < v.capacity ∧ best.capacity < v.capacity then v else best)

/-- Embeds `_select_share_for_volume`: the loop starts from the dummy
best share with capacity 0 and empty mount point, and afterwards a
`CinderException` (no free space) is raised iff the final best capacity
is strictly below the requested size. -/
def select_share_for_volume (shares : List ShareInfo) (size : Int) :
    Except String ShareInfo :=
  let best := selectLoop size shares ⟨0, ""⟩
  if best.capacity < size then Except.error "No free space for new volume"
  else Except.ok best

/- ------------------------------------------------------------------
   File-size equality and resize (`_is_file_size_equal`, `_resize_vol`)
   ------------------------------------------------------------------ -/

/-- Modelled from the spec: `cinder/units` is not under `src/`; the spec
fixes one GiB as 2^30 bytes. -/
def GiB : Nat := 2 ^ 30

/-- Embeds `_is_file_size_equal`: `virt_size = data.virtual_size / units.GiB`
is Python 2 floor division of the integral qemu virtual size by GiB, then
compared with the requested size in GiB. -/
def is_file_size_equal (virtual_size : Nat) (size : Nat) : Bool :=
  virtual_size / GiB == size

/-- Observable outcome of `_resize_vol`: the returned boolean, how many
times `image_utils.resize_image` was invoked, and whether the partial
file was unlinked on failure. -/
structure ResizeOutcome where
  ok : Bool
  resize_calls : Nat
  deleted : Bool
deriving DecidableEq

/-- Embeds `_resize_vol`: `v0` is the virtual size before the backend
resize, `v1` the virtual size after it, `file_exists_on_fail` is the
`os.path.exists(vol_path)` test on the failure path.  The first equal
check returns success with no resize call; otherwise one resize call and
one re-check happen; a still-unequal size raises `InvalidVolume`, which
the handler turns into cleanup (unlink iff `delete_on_fail` and the file
exists) and a `False` return. -/
def resize_vol (v0 v1 : Nat) (size : Nat) (delete_on_fail : Bool)
    (file_exists_on_fail : Bool) : ResizeOutcome :=
  if is_file_size_equal v0 size then ⟨true, 0, false⟩
  else if is_file_size_equal v1 size then ⟨true, 1, false⟩
  else ⟨false, 1, delete_on_fail && file_exists_on_fail⟩

/- ------------------------------------------------------------------
   File discovery (`_discover_file_till_timeout`)
   ------------------------------------------------------------------ -/

/-- Embeds the loop of `_discover_file_till_timeout`.  `ex t` is the
`os.path.exists(path)` test at elapsed time `t` seconds; existence is
checked first, then the remaining budget `retry` (initially 45, reduced
by 2 for every 2-second sleep) is tested against 0. -/
def discoverLoop (ex : Nat → Bool) (retry : Int) (t : Nat) : Bool :=
  if ex t then true
  else if retry ≤ 0 then false
  else discoverLoop ex (retry - 2) (t + 2)
termination_by retry.toNat
decreasing_by
  simp only [not_le] at *
  omega

/-- Embeds `_discover_file_till_timeout` with `retry_seconds = 45` and
`sleep_interval = 2`, started at elapsed time 0. -/
def discover_file_till_timeout (ex : Nat → Bool) : Bool :=
  discoverLoop ex 45 0

/- ------------------------------------------------------------------
   Cache eviction deletion pass (`_delete_files_till_bytes_free`)
   ------------------------------------------------------------------ -/

/-- Embeds one entry of the candidate `file_list`: the cache file name
and its reclaimable byte size. -/
structure DelCandidate where
  file : String
  size : Int
deriving DecidableEq

instance : DecidableRel (fun a b : DelCandidate => b.size ≤ a.size) :=
  fun a b => inferInstanceAs (Decidable (b.size ≤ a.size))

instance : IsTotal DelCandidate (fun a b => b.size ≤ a.size) :=
  ⟨fun a b => le_total b.size a.size⟩

instance : IsTrans DelCandidate (fun a b => b.size ≤ a.size) :=
  ⟨fun _ _ _ hab hbc => le_trans hbc hab⟩

/-- Embeds `sorted(file_list, key=lambda x: x[1], reverse=True)`:
a stable sort placing larger reclaimable sizes first (insertion sort
computes the same list as any stable sort for this total preorder). -/
def sortCandidatesDesc (l : List DelCandidate) : List DelCandidate :=
  List.insertionSort (fun a b => b.size ≤ a.size) l

/-- Embeds the deletion loop of `_delete_files_till_bytes_free` over the
already-sorted candidates.  `delOk f` is whether `_delete_file` succeeds
on file `f` (failures are logged and skipped).  Returns the attempted
candidates in attempt order together with the final `bytes_to_free`:
a successful deletion subtracts the candidate size, and the loop returns
as soon as `bytes_to_free <= 0`. -/
def delLoop (delOk : String → Bool) :
    List DelCandidate → Int → List DelCandidate × Int
  | [], btf => ([], btf)
  | f :: rest, btf =>
    if delOk f.file then
      if btf - f.size ≤ 0 then ([f], btf - f.size)
      else
        let r := delLoop delOk rest (btf - f.size)
        (f :: r.1, r.2)
    else
      let r := delLoop delOk rest btf
      (f :: r.1, r.2)

/-- Embeds `_delete_files_till_bytes_free`: nothing happens unless the
candidate list is nonempty and `bytes_to_free > 0`; otherwise the
candidates are sorted descending by reclaimable size and the deletion
loop runs. -/
def delete_files_till_bytes_free (delOk : String → Bool)
    (file_list : List DelCandidate) (bytes_to_free : Int) :
    List DelCandidate × Int :=
  if file_list ≠ [] ∧ 0 < bytes_to_free then
    delLoop delOk (sortCandidatesDesc file_list) bytes_to_free
  else ([], bytes_to_free)

/-- Bytes freed over a list of attempted candidates: the sum of the sizes
of the candidates whose deletion succeeded. -/
def freedBytes (delOk : String → Bool) (l : List DelCandidate) : Int :=
  ((l.filter (fun f => delOk f.file)).map (fun f => f.size)).sum

/- ------------------------------------------------------------------
   Asynchronous clone state machine (`NetAppDirect7modeNfsDriver`)
   ------------------------------------------------------------------ -/

/-- Embeds one `clone-list-status` poll response as examined by
`_wait_for_clone_finish`: a running state, a completed state, a failed
state with error code and reason, or an empty `ops_info`. -/
inductive CloneStatus where
  | running : CloneStatus
  | completed : CloneStatus
  | failed (code reason : String) : CloneStatus
  | noOpsInfo : CloneStatus
deriving DecidableEq

/-- Embeds `NaApiError`: an error code and a reason. -/
structure NaApiErr where
  code : String
  reason : String
deriving DecidableEq

/-- Embeds `_wait_for_clone_finish` over the successive poll responses.
Returns `none` when the responses run out with the task still running
(the source loop would poll again: it has no bound of its own), and
otherwise the outcome together with the number of 1-second sleeps taken,
one per `running` response. -/
def wait_for_clone_finish : List CloneStatus → Option (Except NaApiErr Unit × Nat)
  | [] => none
  | s :: rest =>
    match s with
    | .completed => some (Except.ok (), 0)
    | .failed c r => some (Except.error ⟨c, r⟩, 0)
    | .noOpsInfo =>
        some (Except.error
          ⟨"UnknownCloneId", "No clone operation for clone id found on the filer"⟩, 0)
    | .running =>
      match wait_for_clone_finish rest with
      | none => none
      | some (out, n) => some (out, n + 1)

/-- Embeds the retry loop of `_clear_clone`: `r` is the remaining `retry`
budget, `i` the index of the next attempt; `ok i` is whether the i-th
`clone-clear` RPC succeeds.  Returns the number of RPC invocations and
the list of sleep durations (5 seconds after every failed attempt); all
failures are swallowed. -/
def clearGo (ok : Nat → Bool) : Nat → Nat → Nat × List Nat
  | 0, i => (i, [])
  | r + 1, i =>
    if ok i then (i + 1, [])
    else
      let res := clearGo ok r (i + 1)
      (res.1, 5 :: res.2)

/-- Embeds `_clear_clone` with its initial `retry = 3`. -/
def clear_clone (ok : Nat → Bool) : Nat × List Nat :=
  clearGo ok 3 0

/-- Embeds `NetAppDirect7modeNfsDriver._clone_volume` past `_start_clone`:
when `vol_uuid` is present the driver waits on the poll responses; on a
failed wait it issues `_clear_clone` unless the error code is
`UnknownCloneId`, and re-raises the error.  Returns `none` when polling
never reaches a terminal status, else the surfaced outcome paired with
the number of `clone-clear` RPC invocations. -/
def clone_volume_7mode (vol_uuid_present : Bool) (statuses : List CloneStatus)
    (clearOk : Nat → Bool) : Option (Except NaApiErr Unit × Nat) :=
  if vol_uuid_present then
    match wait_for_clone_finish statuses with
    | none => none
    | some (Except.ok _, _) => some (Except.ok (), 0)
    | some (Except.error e, _) =>
      if e.code ≠ "UnknownCloneId" then
        some (Except.error e, (clear_clone clearOk).1)
      else
        some (Except.error e, 0)
  else some (Except.ok (), 0)

/- ------------------------------------------------------------------
   Eviction eligibility arithmetic (`_clean_image_cache`)
   ------------------------------------------------------------------ -/

/-- Modelled from the spec: `_get_capacity_info` (the CapacityProbe) is
not under `src/`; per the spec it reports the share total and available
sizes in bytes, as nonnegative numeric quantities.  The division
`int((total_avl / total_size) * 100)` of `_clean_image_cache` is
modelled as exact division on `ℚ` with `Int.floor` for the `int()`
truncation (the arguments are nonnegative). -/
def avl_percent (total_size total_avl : Nat) : Int :=
  ⌊((total_avl : ℚ) / (total_size : ℚ)) * 100⌋

/-- Embeds the eligibility test of `_clean_image_cache`: a share is
cleaned iff `avl_percent <= thres_avl_size_perc_start`. -/
def share_needs_cleaning (thres_start : Int) (total_size total_avl : Nat) : Bool :=
  decide (avl_percent total_size total_avl ≤ thres_start)

/-- Embeds `threshold_size = int((thres_size_perc_stop * total_size) / 100)`
of `_clean_image_cache`, with the same exact-arithmetic modelling as
`avl_percent`. -/
def threshold_size (thres_stop : Int) (total_size : Nat) : Int :=
  ⌊((thres_stop : ℚ) * (total_size : ℚ)) / 100⌋

/-- Embeds `bytes_to_free = int(threshold_size - total_avl)` of
`_clean_image_cache`; the difference of two integral quantities, so the
outer `int()` is exact. -/
def bytes_to_free (thres_stop : Int) (total_size total_avl : Nat) : Int :=
  threshold_size thres_stop total_size - total_avl

/- ------------------------------------------------------------------
   Cache population (`_do_clone_rel_img_cache`, `_register_image_in_cache`)
   ------------------------------------------------------------------ -/

/-- Embeds the name of the advisory lock taken by
`_do_clone_rel_img_cache`: the decorator is
`utils.synchronized(cache_file, external=True)`, so the lock name is the
cache file name alone; the share is not part of it. -/
def populate_lock_name (_share cache_file : String) : String := cache_file

/-- Observable step of a cache population: acquiring or releasing the
named lock, or invoking the clone primitive `_clone_volume`. -/
inductive CacheAction where
  | acquire (lock : String)
  | cloneCall (src dst share : String)
  | release (lock : String)
deriving DecidableEq

/-- Embeds `_do_clone_rel_img_cache src dst share cache_file` as its
action trace, given whether the destination file already exists: the
named lock is held for the whole critical section and the clone
primitive runs only when the file is absent. -/
def do_clone_rel_img_cache (src dst share cache_file : String)
    (file_exists : Bool) : List CacheAction :=
  [CacheAction.acquire (populate_lock_name share cache_file)]
    ++ (if file_exists then [] else [CacheAction.cloneCall src dst share])
    ++ [CacheAction.release (populate_lock_name share cache_file)]

/-- Embeds `_register_image_in_cache`: the cache clone may raise
(`clone_result` is its outcome) and the surrounding handler catches any
exception, logging a warning.  The caller always gets a normal return;
the payload records the swallowed exception text, if any. -/
def register_image_in_cache (clone_result : Except String Unit) :
    Except String (Option String) :=
  match clone_result with
  | Except.ok _ => Except.ok none
  | Except.error e => Except.ok (some e)

/- ------------------------------------------------------------------
   Old cache file discovery (`_find_old_cache_files`)
   ------------------------------------------------------------------ -/

/-- Embeds what the `find` invocation of `_find_old_cache_files` can
observe about one file on the share mount: its name, whether it sits at
the top level of the mount point (`-maxdepth 1`), and its age in minutes
by access time and by modification time. -/
structure CacheFileInfo where
  name : String
  topLevel : Bool
  atime_age_min : Nat
  mtime_age_min : Nat
deriving DecidableEq

/-- Embeds `_find_old_cache_files`: the command is
`find mount_fs -maxdepth 1 -name img-cache* -amin +threshold`, so a file
is selected iff it is at the top level, its name starts with
`img-cache`, and its age by access time strictly exceeds the
`expiry_thres_minutes` threshold. -/
def find_old_cache_files (threshold : Nat) (files : List CacheFileInfo) :
    List CacheFileInfo :=
  files.filter
    (fun f => f.topLevel && List.isPrefixOf "img-cache".data f.name.data
        && threshold < f.atime_age_min)

/- ------------------------------------------------------------------
   clone_image (`NetAppNFSDriver.clone_image`)
   ------------------------------------------------------------------ -/

/-- Oracles for the collaborators of `clone_image`.  Operations that can
raise are `Except`-valued; `_post_img_clone` catches every exception
itself and returns its boolean from a `finally`, so it is total. -/
structure CloneImageEnv where
  cache_result : List (String × String)
  is_share_eligible : String → Int → Except String Bool
  mount_point : String → Except String String
  do_clone_rel : String → String → String → Except String Unit
  post_img_clone : String → Bool
  cloneable_share : Option String
  src_format : Except String String
  clone_volume_call : Except String Unit
  convert : Except String Unit
  converted_format : Except String String

/-- Embeds the cache branch of `clone_image`: the loop over
`cache_result` rebinds `share` before the eligibility test; an exception
from the eligibility test escapes to the outer handler (the `error`
value carries the `share` variable at that point), while exceptions
inside the per-share `try` are caught and the loop continues; on a
successful clone the loop breaks with `cloned = _post_img_clone(...)`. -/
def cacheLoop (env : CloneImageEnv) (vol_name : String) (size : Int) :
    List (String × String) → Option String →
    Except (Option String) (Bool × Option String)
  | [], sh => Except.ok (false, sh)
  | (s, f) :: rest, _ =>
    if s ≠ "" then
      match env.is_share_eligible s size with
      | Except.error _ => Except.error (some s)
      | Except.ok true =>
        match env.mount_point s with
        | Except.error _ => cacheLoop env vol_name size rest (some s)
        | Except.ok dir_path =>
          match env.do_clone_rel f vol_name s with
          | Except.error _ => cacheLoop env vol_name size rest (some s)
          | Except.ok _ => Except.ok (env.post_img_clone dir_path, some s)
      | Except.ok false => cacheLoop env vol_name size rest (some s)
    else cacheLoop env vol_name size rest (some s)

/-- Embeds the direct-clone branch of `clone_image` (cache miss): the
cloneable share is checked for eligibility, a raw image is cloned
directly, a non-raw image is converted (a conversion that does not end
raw is unlinked and not counted as cloned; a successful conversion is
registered in the cache, with registration failures swallowed), and a
set `cloned` flag is finally replaced by the `_post_img_clone` result. -/
def directBranch (env : CloneImageEnv) (size : Int) :
    Except (Option String) (Bool × Option String) :=
  match env.cloneable_share with
  | none => Except.ok (false, none)
  | some s =>
    if s ≠ "" then
      match env.is_share_eligible s size with
      | Except.error _ => Except.error (some s)
      | Except.ok true =>
        match env.mount_point s with
        | Except.error _ => Except.error (some s)
        | Except.ok dir_path =>
          match env.src_format with
          | Except.error _ => Except.error (some s)
          | Except.ok fmt =>
            if fmt = "raw" then
              match env.clone_volume_call with
              | Except.error _ => Except.error (some s)
              | Except.ok _ => Except.ok (env.post_img_clone dir_path, some s)
            else
              match env.convert with
              | Except.error _ => Except.error (some s)
              | Except.ok _ =>
                match env.converted_format with
                | Except.error _ => Except.error (some s)
                | Except.ok cfmt =>
                  if cfmt ≠ "raw" then Except.ok (false, some s)
                  else Except.ok (env.post_img_clone dir_path, some s)
      | Except.ok false => Except.ok (false, some s)
    else Except.ok (false, some s)

/-- Embeds the dict returned by `clone_image`. -/
structure CloneImageRet where
  provider_location : Option String
  bootable : Bool
deriving DecidableEq

/-- Embeds `clone_image`: the body runs the cache branch when the cache
lookup is nonempty and the direct branch otherwise; the outer handler
catches every exception of the body (keeping the `cloned` and `share`
variables at their values at the raise point), and the `finally` block
returns the pair with `provider_location` nulled unless `cloned`. -/
def clone_image (env : CloneImageEnv) (vol_name : String) (size : Int) :
    CloneImageRet × Bool :=
  let body :=
    if env.cache_result ≠ [] then
      cacheLoop env vol_name size env.cache_result none
    else directBranch env size
  let cs : Bool × Option String :=
    match body with
    | Except.ok (c, s) => (c, s)
    | Except.error s => (false, s)
  (⟨if cs.1 then cs.2 else none, true⟩, cs.1)

/- ==================================================================
   Theorems
   ================================================================== -/

/-- C5: the resize step succeeds immediately when the current virtual
size equals the requested logical size; otherwise it invokes the backend
resize exactly once and re-checks once; if the size still differs it
reports failure and, when `delete_on_fail` is set and the file exists,
removes the partial file; success is reported iff one of the two checks
found the sizes equal.  The spec example (virtual size 9 GiB vs
requested 10, unchanged by the resize) fails after exactly one resize
call and deletes the partial file. -/
theorem claim5_resize_step (v0 v1 size : Nat) (dof exf : Bool) :
    (resize_vol v0 v1 size dof exf).ok
        = (is_file_size_equal v0 size || is_file_size_equal v1 size)
  ∧ (resize_vol v0 v1 size dof exf).resize_calls
        = (if is_file_size_equal v0 size then 0 else 1)
  ∧ (resize_vol v0 v1 size dof exf).deleted
        = (!(resize_vol v0 v1 size dof exf).ok && dof && exf)
  ∧ resize_vol (9 * GiB) (9 * GiB) 10 true true = ⟨false, 1, true⟩ := by
  refine ⟨?_, ?_, ?_, by decide⟩ <;>
    cases h0 : is_file_size_equal v0 size <;>
      cases h1 : is_file_size_equal v1 size <;>
        simp [resize_vol, h0, h1]

/-- C10: the size-equality check compares `virtual_size / 2^30` (floor)
with the requested size in GiB, so every virtual size in
`[size * 2^30, (size + 1) * 2^30)` is judged equal to the requested
logical size, and the resize step then reports success with no backend
resize call and no deletion. -/
theorem claim10_gib_floor_equality (vs size : Nat) :
    (is_file_size_equal vs size = true ↔ size * GiB ≤ vs ∧ vs < (size + 1) * GiB)
  ∧ (size * GiB ≤ vs → vs < (size + 1) * GiB →
      ∀ v1 dof exf, resize_vol vs v1 size dof exf = ⟨true, 0, false⟩) := by
  have hg : GiB = 1073741824 := by norm_num [GiB]
  constructor
  · simp only [is_file_size_equal, hg, beq_iff_eq]
    omega
  · intro h1 h2 v1 dof exf
    have heq : is_file_size_equal vs size = true := by
      simp only [is_file_size_equal, hg, beq_iff_eq] at *
      omega
    simp [resize_vol, heq]

/-- Witness for C10 at `vs = 10 * 2^30 + 5`, `size = 10`. -/
theorem claim10_gib_floor_equality_witness :
    is_file_size_equal (10 * GiB + 5) 10 = true
  ∧ resize_vol (10 * GiB + 5) 0 10 true true = ⟨true, 0, false⟩ := by
  refine ⟨(claim10_gib_floor_equality (10 * GiB + 5) 10).1.mpr ⟨?_, ?_⟩,
         (claim10_gib_floor_equality (10 * GiB + 5) 10).2 ?_ ?_ 0 true true⟩ <;>
    norm_num [GiB]

/-- C7 (amended): cache population runs its critical section under the
named lock whose name is the cache file name alone (the share is not
part of the lock key); it is a no-op when the cache file already exists
(the clone primitive is not invoked); and `_register_image_in_cache`
swallows every exception of the cache clone, so a failed cache warm
never propagates to the caller. -/
theorem claim7_cache_population (src dst share cache_file : String) :
    populate_lock_name share cache_file = cache_file
  ∧ do_clone_rel_img_cache src dst share cache_file true
      = [CacheAction.acquire cache_file, CacheAction.release cache_file]
  ∧ do_clone_rel_img_cache src dst share cache_file false
      = [CacheAction.acquire cache_file, CacheAction.cloneCall src dst share,
         CacheAction.release cache_file]
  ∧ ∀ res : Except String Unit, ∃ w, register_image_in_cache res = Except.ok w := by
  refine ⟨rfl, rfl, rfl, ?_⟩
  intro res
  cases res <;> exact ⟨_, rfl⟩

/-- Counterexample for C7: the lock is keyed by the cache file name
only, so the two distinct keys (shareA, img-cache-1) and
(shareB, img-cache-1) resolve to one and the same named lock — there is
no lock per (share, cacheFileName) key as the claim states. -/
theorem claim7_counterexample :
    populate_lock_name "shareA" "img-cache-1"
        = populate_lock_name "shareB" "img-cache-1"
  ∧ "shareA" ≠ "shareB" :=
  ⟨rfl, by decide⟩

/-- C8 (amended): the eviction candidates are exactly the top-level
files whose name starts with `img-cache` and whose age measured by
ACCESS time (the `-amin` test of the `find` command) strictly exceeds
the expiry threshold in minutes. -/
theorem claim8_candidate_filter (threshold : Nat) (files : List CacheFileInfo)
    (f : CacheFileInfo) :
    f ∈ find_old_cache_files threshold files
      ↔ f ∈ files ∧ f.topLevel = true
          ∧ List.isPrefixOf "img-cache".data f.name.data = true
          ∧ threshold < f.atime_age_min := by
  simp [find_old_cache_files, List.mem_filter, and_assoc]

/-- Counterexample for C8: a top-level `img-cache` file last accessed
100 minutes ago but modified just now (modification age 0) is selected
by the code under a 60-minute threshold, although its age by
modification time does not exceed the threshold — candidates are chosen
by access time, not by modification time as the claim states. -/
theorem claim8_counterexample :
    find_old_cache_files 60 [⟨"img-cache-1", true, 100, 0⟩]
        = [⟨"img-cache-1", true, 100, 0⟩]
  ∧ ¬ (60 < (CacheFileInfo.mk "img-cache-1" true 100 0).mtime_age_min) := by
  exact ⟨by decide, by decide⟩

/-- Characterization of the running-maximum loop of
`_select_share_for_volume`: either no candidate beats the accumulator
(the accumulator is returned and every qualifying share is bounded by
its capacity), or the result is the first list element attaining the
maximum qualifying capacity beyond the accumulator. -/
theorem selectLoop_spec (size : Int) :
    ∀ (l : List ShareInfo) (best : ShareInfo),
      (selectLoop size l best = best
        ∧ ∀ s ∈ l, size < s.capacity → s.capacity ≤ best.capacity)
    ∨ (∃ l1 s l2, l = l1 ++ s :: l2
        ∧ selectLoop size l best = s
        ∧ size < s.capacity ∧ best.capacity < s.capacity
        ∧ (∀ x ∈ l1, size < x.capacity → x.capacity < s.capacity)
        ∧ (∀ x ∈ l2, size < x.capacity → x.capacity ≤ s.capacity)) := by
  intro l
  induction l with
  | nil =>
    intro best
    left
    exact ⟨rfl, by simp⟩
  | cons v rest ih =>
    intro best
    by_cases hv : size < v.capacity ∧ best.capacity < v.capacity
    · have hstep : selectLoop size (v :: rest) best = selectLoop size rest v := by
        simp [selectLoop, hv]
      rcases ih v with ⟨heq, hb⟩ | ⟨l1, s, l2, hl, heq, hq, hlt, h1, h2⟩
      · right
        exact ⟨[], v, rest, by simp, by rw [hstep, heq], hv.1, hv.2, by simp, hb⟩
      · right
        refine ⟨v :: l1, s, l2, by simp [hl], by rw [hstep, heq], hq,
          lt_trans hv.2 hlt, ?_, h2⟩
        intro x hx hxq
        rcases List.mem_cons.1 hx with rfl | hx2
        · exact hlt
        · exact h1 x hx2 hxq
    · have hstep : selectLoop size (v :: rest) best = selectLoop size rest best := by
        simp [selectLoop, hv]
      rcases ih best with ⟨heq, hb⟩ | ⟨l1, s, l2, hl, heq, hq, hlt, h1, h2⟩
      · left
        refine ⟨by rw [hstep, heq], ?_⟩
        intro x hx hxq
        rcases List.mem_cons.1 hx with rfl | hx2
        · by_contra hcon
          exact hv ⟨hxq, by omega⟩
        · exact hb x hx2 hxq
      · right
        refine ⟨v :: l1, s, l2, by simp [hl], by rw [hstep, heq], hq, hlt, ?_, h2⟩
        intro x hx hxq
        rcases List.mem_cons.1 hx with rfl | hx2
        · have hle : x.capacity ≤ best.capacity := by
            by_contra hcon
            exact hv ⟨hxq, by omega⟩
          omega
        · exact h1 x hx2 hxq

/-- C3 (amended): for every positive requested size, share selection
fails with the no-free-space error exactly when no share has available
capacity strictly greater than the requested size, and otherwise returns
the first share attaining the maximum available capacity among those
with capacity strictly above the requested size (stable tie-break by
list order).  For a non-positive requested size the error can be
skipped even when no share qualifies (see the counterexample). -/
theorem claim3_share_selection (shares : List ShareInfo) (size : Int)
    (hsize : 0 < size) :
    (∀ e, select_share_for_volume shares size = Except.error e →
        ∀ s ∈ shares, ¬ size < s.capacity)
  ∧ ((∀ s ∈ shares, ¬ size < s.capacity) →
        select_share_for_volume shares size
          = Except.error "No free space for new volume")
  ∧ (∀ b, select_share_for_volume shares size = Except.ok b →
        size < b.capacity
      ∧ ∃ l1 l2, shares = l1 ++ b :: l2
          ∧ (∀ x ∈ l1, size < x.capacity → x.capacity < b.capacity)
          ∧ (∀ x ∈ l2, size < x.capacity → x.capacity ≤ b.capacity)) := by
  rcases selectLoop_spec size shares ⟨0, ""⟩
    with ⟨heq, hb⟩ | ⟨l1, s, l2, hl, heq, hq, _, h1, h2⟩
  · have hr : select_share_for_volume shares size
        = Except.error "No free space for new volume" := by
      simp only [select_share_for_volume, heq]
      rw [if_pos hsize]
    refine ⟨?_, fun _ => hr, ?_⟩
    · intro e _ x hx hxq
      have hxb := hb x hx hxq
      have hcap : (ShareInfo.mk 0 "").capacity = 0 := rfl
      omega
    · intro b hbe
      rw [hr] at hbe
      cases hbe
  · have hnotlt : ¬ s.capacity < size := by omega
    have hr : select_share_for_volume shares size = Except.ok s := by
      simp only [select_share_for_volume, heq]
      rw [if_neg hnotlt]
    refine ⟨?_, ?_, ?_⟩
    · intro e he
      rw [hr] at he
      cases he
    · intro hnone
      exfalso
      exact hnone s (hl ▸ List.mem_append.2 (Or.inr (List.mem_cons_self _ _))) hq
    · intro b hb2
      rw [hr] at hb2
      injection hb2 with hb3
      subst hb3
      exact ⟨hq, l1, l2, hl, h1, h2⟩

/-- Counterexample for C3: with no candidate shares and requested size 0
no share qualifies, yet the selector returns the dummy best share
(capacity 0, empty mount point) instead of failing with the
no-free-space error, because the final check compares with a strict
`best.capacity < size`. -/
theorem claim3_counterexample :
    select_share_for_volume [] 0 = Except.ok ⟨0, ""⟩ := rfl

/-- Witness for C3 on the spec example: shares A(5000), B(20000),
C(15000); size 10000 selects B, size 25000 fails with the no-free-space
error. -/
theorem claim3_share_selection_witness :
    select_share_for_volume [⟨5000, "A"⟩, ⟨20000, "B"⟩, ⟨15000, "C"⟩] 10000
        = Except.ok ⟨20000, "B"⟩
  ∧ select_share_for_volume [⟨5000, "A"⟩, ⟨20000, "B"⟩, ⟨15000, "C"⟩] 25000
        = Except.error "No free space for new volume"
  ∧ (10000 : Int)
      < (ShareInfo.mk 20000 "B").capacity := by
  refine ⟨rfl, ?_, ?_⟩
  · exact (claim3_share_selection [⟨5000, "A"⟩, ⟨20000, "B"⟩, ⟨15000, "C"⟩]
      25000 (by norm_num)).2.1 (by decide)
  · exact ((claim3_share_selection [⟨5000, "A"⟩, ⟨20000, "B"⟩, ⟨15000, "C"⟩]
      10000 (by norm_num)).2.2 ⟨20000, "B"⟩ rfl).1

/-- With an exhausted budget the discovery loop performs exactly one
final existence check. -/
theorem discoverLoop_nonpos (ex : Nat → Bool) (retry : Int) (t : Nat)
    (h : retry ≤ 0) : discoverLoop ex retry t = ex t := by
  rw [discoverLoop]
  cases hx : ex t <;> simp [hx, h]

/-- With budget remaining the discovery loop checks now and otherwise
sleeps two seconds and recurses with the budget reduced by two. -/
theorem discoverLoop_pos (ex : Nat → Bool) (retry : Int) (t : Nat)
    (h : 0 < retry) :
    discoverLoop ex retry t = (ex t || discoverLoop ex (retry - 2) (t + 2)) := by
  have hnle : ¬ retry ≤ 0 := by omega
  rw [discoverLoop]
  cases hx : ex t
  · rw [if_neg (by simp), if_neg hnle, Bool.false_or]
  · rw [if_pos rfl, Bool.true_or]

/-- Characterization of the discovery loop on the odd budgets `2*m + 1`
actually reachable from the initial 45: the file is found iff it exists
at one of the m+2 check instants t, t+2, …, t+2*(m+1). -/
theorem discoverLoop_odd (ex : Nat → Bool) :
    ∀ (m t : Nat),
      (discoverLoop ex (2 * (m : Int) + 1) t = true
        ↔ ∃ j, j ≤ m + 1 ∧ ex (t + 2 * j) = true) := by
  intro m
  induction m with
  | zero =>
    intro t
    have h1 : discoverLoop ex (2 * ((0 : Nat) : Int) + 1) t
        = (ex t || ex (t + 2)) := by
      rw [discoverLoop_pos ex _ t (by norm_num),
        discoverLoop_nonpos ex _ _ (by norm_num)]
    rw [h1]
    simp only [Bool.or_eq_true]
    constructor
    · rintro (hx | hx)
      · exact ⟨0, by omega, by simpa using hx⟩
      · refine ⟨1, by omega, ?_⟩
        have e : t + 2 * 1 = t + 2 := by omega
        rw [e]
        exact hx
    · rintro ⟨j, hj, hex⟩
      interval_cases j
      · left
        simpa using hex
      · right
        have e : t + 2 * 1 = t + 2 := by omega
        rw [e] at hex
        exact hex
  | succ m ih =>
    intro t
    have hcast : (2 * ((m + 1 : Nat) : Int) + 1) - 2 = 2 * (m : Int) + 1 := by
      push_cast
      ring
    have h1 : discoverLoop ex (2 * ((m + 1 : Nat) : Int) + 1) t
        = (ex t || discoverLoop ex (2 * (m : Int) + 1) (t + 2)) := by
      rw [discoverLoop_pos ex _ t (by push_cast; omega), hcast]
    rw [h1]
    simp only [Bool.or_eq_true, ih (t + 2)]
    constructor
    · rintro (hx | ⟨j, hj, hex⟩)
      · exact ⟨0, by omega, by simpa using hx⟩
      · refine ⟨j + 1, by omega, ?_⟩
        have e : t + 2 * (j + 1) = t + 2 + 2 * j := by ring
        rw [e]
        exact hex
    · rintro ⟨j, hj, hex⟩
      cases j with
      | zero =>
        left
        simpa using hex
      | succ j2 =>
        right
        refine ⟨j2, by omega, ?_⟩
        have e : t + 2 + 2 * j2 = t + 2 * (j2 + 1) := by ring
        rw [e]
        exact hex

/-- Top-level characterization of `_discover_file_till_timeout`: the
file is found iff it exists at one of the 24 check instants
0, 2, …, 46 seconds. -/
theorem discover_true_iff (ex : Nat → Bool) :
    discover_file_till_timeout ex = true ↔ ∃ j, j ≤ 23 ∧ ex (2 * j) = true := by
  have h45 : (45 : Int) = 2 * ((22 : Nat) : Int) + 1 := by norm_num
  rw [discover_file_till_timeout, h45, discoverLoop_odd ex 22 0]
  constructor
  · rintro ⟨j, hj, hex⟩
    exact ⟨j, by omega, by simpa using hex⟩
  · rintro ⟨j, hj, hex⟩
    exact ⟨j, by omega, by simpa using hex⟩

/-- C4 (amended): discovery polls `exists(path)` every 2 seconds against
a 45-second budget that is decremented by 2 per sleep and only tested
for exhaustion at or below zero, so the existence checks happen at
t = 0, 2, …, 46 — the last check at 46 seconds, not at or before 45;
not-found is returned iff the file is absent at all 24 checks, and a
file absent through 44s but present from 46s onward IS found. -/
theorem claim4_discovery_checks :
    (∀ ex, discover_file_till_timeout ex = true
        ↔ ∃ j, j ≤ 23 ∧ ex (2 * j) = true)
  ∧ (∀ ex, discover_file_till_timeout ex = false
        ↔ ∀ j, j ≤ 23 → ex (2 * j) = false)
  ∧ discover_file_till_timeout (fun t => decide (46 ≤ t)) = true := by
  refine ⟨discover_true_iff, ?_, ?_⟩
  · intro ex
    constructor
    · intro h j hj
      by_contra hc
      have ht : discover_file_till_timeout ex = true :=
        (discover_true_iff ex).2 ⟨j, hj, by simpa using hc⟩
      rw [h] at ht
      cases ht
    · intro h
      cases hd : discover_file_till_timeout ex
      · rfl
      · rcases (discover_true_iff ex).1 hd with ⟨j, hj, hex⟩
        rw [h j hj] at hex
        cases hex
  · exact (discover_true_iff _).2 ⟨23, le_refl _, by decide⟩

/-- Counterexample for C4: for a file absent at every instant before 46
seconds and present from 46 seconds onward, discovery returns FOUND
(the loop makes a final check at t = 46), while the claim states the
result is not-found with a last check at or before 45 seconds. -/
theorem claim4_counterexample :
    discover_file_till_timeout (fun t => decide (46 ≤ t)) = true :=
  (discover_true_iff _).2 ⟨23, le_refl _, by decide⟩

/-- Freed bytes over an empty attempt list. -/
theorem freedBytes_nil (delOk : String → Bool) : freedBytes delOk [] = 0 := rfl

/-- Freed bytes over a cons: the head contributes its size exactly when
its deletion succeeds. -/
theorem freedBytes_cons (delOk : String → Bool) (f : DelCandidate)
    (l : List DelCandidate) :
    freedBytes delOk (f :: l)
      = (if delOk f.file then f.size else 0) + freedBytes delOk l := by
  unfold freedBytes
  rw [List.filter_cons]
  cases h : delOk f.file <;> simp [h]

/-- Invariant of the deletion loop of `_delete_files_till_bytes_free`,
for a positive starting deficit: the attempted candidates form an
initial segment of the input; the final deficit is the starting deficit
minus the bytes freed by the successful deletions among the attempts;
the loop stops only with the deficit met or the input exhausted; and
every attempt is made strictly before the deficit is met. -/
theorem delLoop_spec (delOk : String → Bool) :
    ∀ (l : List DelCandidate) (btf : Int), 0 < btf →
      (∃ t, l = (delLoop delOk l btf).1 ++ t)
    ∧ (delLoop delOk l btf).2
        = btf - freedBytes delOk (delLoop delOk l btf).1
    ∧ ((delLoop delOk l btf).2 ≤ 0 ∨ (delLoop delOk l btf).1 = l)
    ∧ (∀ p s, (delLoop delOk l btf).1 = p ++ s → s ≠ [] →
          freedBytes delOk p < btf) := by
  intro l
  induction l with
  | nil =>
    intro btf hbtf
    refine ⟨⟨[], rfl⟩, by simp [delLoop, freedBytes_nil], Or.inr rfl, ?_⟩
    intro p s hp hs
    have hpe : p = [] ∧ s = [] := by
      have : p ++ s = [] := by
        have h0 : (delLoop delOk [] btf).1 = [] := rfl
        rw [h0] at hp
        exact hp.symm
      exact List.append_eq_nil.1 this
    exact absurd hpe.2 hs
  | cons f rest ih =>
    intro btf hbtf
    by_cases hdel : delOk f.file
    · by_cases hstop : btf - f.size ≤ 0
      · have hr : delLoop delOk (f :: rest) btf = ([f], btf - f.size) := by
          simp [delLoop, hdel, hstop]
        rw [hr]
        refine ⟨⟨rest, rfl⟩, ?_, Or.inl hstop, ?_⟩
        · rw [freedBytes_cons, if_pos hdel, freedBytes_nil]
          ring
        · intro p s hp hs
          cases p with
          | nil =>
            rw [freedBytes_nil]
            exact hbtf
          | cons a p2 =>
            simp only [List.cons_append, List.cons.injEq] at hp
            rcases List.append_eq_nil.1 hp.2.symm with ⟨_, hs2⟩
            exact absurd hs2 hs
      · have hbtf2 : 0 < btf - f.size := by omega
        obtain ⟨⟨t, ht⟩, hfree, hdisj, hpre⟩ := ih (btf - f.size) hbtf2
        have hr : delLoop delOk (f :: rest) btf
            = (f :: (delLoop delOk rest (btf - f.size)).1,
               (delLoop delOk rest (btf - f.size)).2) := by
          simp [delLoop, hdel, hstop]
        rw [hr]
        refine ⟨⟨t, by rw [List.cons_append, ← ht]⟩, ?_, ?_, ?_⟩
        · rw [freedBytes_cons, if_pos hdel, hfree]
          ring
        · rcases hdisj with h | h
          · exact Or.inl h
          · exact Or.inr (by rw [h])
        · intro p s hp hs
          cases p with
          | nil =>
            rw [freedBytes_nil]
            exact hbtf
          | cons a p2 =>
            simp only [List.cons_append, List.cons.injEq] at hp
            obtain ⟨rfl, hp2⟩ := hp
            have h2 := hpre p2 s hp2 hs
            rw [freedBytes_cons, if_pos hdel]
            omega
    · obtain ⟨⟨t, ht⟩, hfree, hdisj, hpre⟩ := ih btf hbtf
      have hr : delLoop delOk (f :: rest) btf
          = (f :: (delLoop delOk rest btf).1, (delLoop delOk rest btf).2) := by
        simp [delLoop, hdel]
      rw [hr]
      refine ⟨⟨t, by rw [List.cons_append, ← ht]⟩, ?_, ?_, ?_⟩
      · rw [freedBytes_cons, if_neg hdel, hfree]
        ring
      · rcases hdisj with h | h
        · exact Or.inl h
        · exact Or.inr (by rw [h])
      · intro p s hp hs
        cases p with
        | nil =>
          rw [freedBytes_nil]
          exact hbtf
        | cons a p2 =>
          simp only [List.cons_append, List.cons.injEq] at hp
          obtain ⟨rfl, hp2⟩ := hp
          have h2 := hpre p2 s hp2 hs
          rw [freedBytes_cons, if_neg hdel]
          omega

/-- C1: for a positive deficit, the eviction pass attempts deletions in
descending order of reclaimable size (the attempts are an initial
segment of the stable descending sort of the candidates, which is
sorted and a permutation of the input); the freed total (starting
deficit minus final deficit) is exactly the sum of the sizes of the
successfully deleted candidates; the pass stops only once the deficit
is met or the candidates are exhausted; and no candidate is attempted
after the deficit is already met. -/
theorem claim1_eviction_pass (delOk : String → Bool)
    (file_list : List DelCandidate) (d : Int) (hd : 0 < d) :
    (∃ t, sortCandidatesDesc file_list
        = (delete_files_till_bytes_free delOk file_list d).1 ++ t)
  ∧ List.Sorted (fun a b => b.size ≤ a.size) (sortCandidatesDesc file_list)
  ∧ (sortCandidatesDesc file_list).Perm file_list
  ∧ d - (delete_files_till_bytes_free delOk file_list d).2
      = freedBytes delOk (delete_files_till_bytes_free delOk file_list d).1
  ∧ ((delete_files_till_bytes_free delOk file_list d).2 ≤ 0
      ∨ (delete_files_till_bytes_free delOk file_list d).1
          = sortCandidatesDesc file_list)
  ∧ (∀ p s, (delete_files_till_bytes_free delOk file_list d).1 = p ++ s →
        s ≠ [] → freedBytes delOk p < d) := by
  by_cases hfl : file_list = []
  · subst hfl
    have hsort : sortCandidatesDesc [] = [] := rfl
    have hr : delete_files_till_bytes_free delOk [] d = ([], d) := by
      simp [delete_files_till_bytes_free]
    rw [hr, hsort]
    refine ⟨⟨[], rfl⟩, by simp, by simp [List.Perm.refl], ?_, Or.inr rfl, ?_⟩
    · rw [freedBytes_nil]
      ring
    · intro p s hp hs
      rcases List.append_eq_nil.1 hp.symm with ⟨_, hs2⟩
      exact absurd hs2 hs
  · have hr : delete_files_till_bytes_free delOk file_list d
        = delLoop delOk (sortCandidatesDesc file_list) d := by
      simp [delete_files_till_bytes_free, hfl, hd]
    obtain ⟨hpre, hfree, hdisj, hstop⟩ :=
      delLoop_spec delOk (sortCandidatesDesc file_list) d hd
    rw [hr]
    exact ⟨hpre, List.sorted_insertionSort _ _, List.perm_insertionSort _ _,
      by omega, hdisj, hstop⟩

/-- Witness for C1 on the spec example: deficit 25000 and candidates of
reclaimable sizes 5000, 3000, 1000 with all deletions succeeding:
deletion proceeds largest-first, all three candidates are attempted,
9000 bytes are freed and the pass ends with the candidates exhausted. -/
theorem claim1_eviction_pass_witness :
    delete_files_till_bytes_free (fun _ => true)
        [⟨"f5", 5000⟩, ⟨"f3", 3000⟩, ⟨"f1", 1000⟩] 25000
      = ([⟨"f5", 5000⟩, ⟨"f3", 3000⟩, ⟨"f1", 1000⟩], 16000)
  ∧ ((∃ t, sortCandidatesDesc [⟨"f5", 5000⟩, ⟨"f3", 3000⟩, ⟨"f1", 1000⟩]
        = (delete_files_till_bytes_free (fun _ => true)
            [⟨"f5", 5000⟩, ⟨"f3", 3000⟩, ⟨"f1", 1000⟩] 25000).1 ++ t)
    ∧ List.Sorted (fun a b : DelCandidate => b.size ≤ a.size)
        (sortCandidatesDesc [⟨"f5", 5000⟩, ⟨"f3", 3000⟩, ⟨"f1", 1000⟩])
    ∧ (sortCandidatesDesc [⟨"f5", 5000⟩, ⟨"f3", 3000⟩, ⟨"f1", 1000⟩]).Perm
        [⟨"f5", 5000⟩, ⟨"f3", 3000⟩, ⟨"f1", 1000⟩]
    ∧ (25000 : Int) - (delete_files_till_bytes_free (fun _ => true)
          [⟨"f5", 5000⟩, ⟨"f3", 3000⟩, ⟨"f1", 1000⟩] 25000).2
        = freedBytes (fun _ => true) (delete_files_till_bytes_free (fun _ => true)
            [⟨"f5", 5000⟩, ⟨"f3", 3000⟩, ⟨"f1", 1000⟩] 25000).1
    ∧ ((delete_files_till_bytes_free (fun _ => true)
          [⟨"f5", 5000⟩, ⟨"f3", 3000⟩, ⟨"f1", 1000⟩] 25000).2 ≤ 0
        ∨ (delete_files_till_bytes_free (fun _ => true)
            [⟨"f5", 5000⟩, ⟨"f3", 3000⟩, ⟨"f1", 1000⟩] 25000).1
          = sortCandidatesDesc [⟨"f5", 5000⟩, ⟨"f3", 3000⟩, ⟨"f1", 1000⟩])
    ∧ (∀ p s, (delete_files_till_bytes_free (fun _ => true)
          [⟨"f5", 5000⟩, ⟨"f3", 3000⟩, ⟨"f1", 1000⟩] 25000).1 = p ++ s →
        s ≠ [] → freedBytes (fun _ => true) p < 25000)) :=
  ⟨by decide,
   claim1_eviction_pass (fun _ => true)
     [⟨"f5", 5000⟩, ⟨"f3", 3000⟩, ⟨"f1", 1000⟩] 25000 (by norm_num)⟩

/-- Polling over n Running responses followed by a terminal response
yields the terminal outcome after exactly n 1-second sleeps. -/
theorem wait_replicate_terminal (term : CloneStatus)
    (out : Except NaApiErr Unit)
    (hterm : wait_for_clone_finish [term] = some (out, 0)) :
    ∀ n, wait_for_clone_finish
        (List.replicate n CloneStatus.running ++ [term]) = some (out, n) := by
  intro n
  induction n with
  | zero => simpa using hterm
  | succ k ih =>
    rw [List.replicate_succ, List.cons_append]
    simp only [wait_for_clone_finish, ih]

/-- C2: a clone whose polled status sequence ends in Failed(code,
reason) fails surfacing exactly that code and reason; the clear routine
is invoked (with between 1 and 3 clone-clear RPC attempts, a fixed
5-second sleep after every failed attempt, and every failure swallowed)
exactly when the code is not UnknownCloneId; a sequence ending in an
empty ops_info fails as UnknownCloneId with no clear; and the sequence
Running, Running, Completed succeeds after exactly 2 polls (1-second
sleeps) past the start. -/
theorem claim2_clone_failure_clear (n : Nat) (c r r2 : String)
    (clearOk : Nat → Bool) (hc : c ≠ "UnknownCloneId") :
    clone_volume_7mode true
        (List.replicate n CloneStatus.running ++ [CloneStatus.failed c r]) clearOk
      = some (Except.error ⟨c, r⟩, (clear_clone clearOk).1)
  ∧ 1 ≤ (clear_clone clearOk).1 ∧ (clear_clone clearOk).1 ≤ 3
  ∧ (∀ dur ∈ (clear_clone clearOk).2, dur = 5)
  ∧ (clear_clone clearOk).2.length ≤ 3
  ∧ clone_volume_7mode true
        (List.replicate n CloneStatus.running
          ++ [CloneStatus.failed "UnknownCloneId" r2]) clearOk
      = some (Except.error ⟨"UnknownCloneId", r2⟩, 0)
  ∧ clone_volume_7mode true
        (List.replicate n CloneStatus.running ++ [CloneStatus.noOpsInfo]) clearOk
      = some (Except.error
          ⟨"UnknownCloneId", "No clone operation for clone id found on the filer"⟩, 0)
  ∧ wait_for_clone_finish
        [CloneStatus.running, CloneStatus.running, CloneStatus.completed]
      = some (Except.ok (), 2) := by
  have hw1 := wait_replicate_terminal (CloneStatus.failed c r)
    (Except.error ⟨c, r⟩) rfl n
  have hw2 := wait_replicate_terminal (CloneStatus.failed "UnknownCloneId" r2)
    (Except.error ⟨"UnknownCloneId", r2⟩) rfl n
  have hw3 := wait_replicate_terminal CloneStatus.noOpsInfo
    (Except.error
      ⟨"UnknownCloneId", "No clone operation for clone id found on the filer"⟩)
    rfl n
  refine ⟨?_, ?_, ?_, ?_, ?_, ?_, ?_, rfl⟩
  · simp [clone_volume_7mode, hw1, hc]
  · cases h0 : clearOk 0 <;> cases h1 : clearOk 1 <;> cases h2 : clearOk 2 <;>
      simp [clear_clone, clearGo, h0, h1, h2]
  · cases h0 : clearOk 0 <;> cases h1 : clearOk 1 <;> cases h2 : clearOk 2 <;>
      simp [clear_clone, clearGo, h0, h1, h2]
  · cases h0 : clearOk 0 <;> cases h1 : clearOk 1 <;> cases h2 : clearOk 2 <;>
      simp [clear_clone, clearGo, h0, h1, h2]
  · cases h0 : clearOk 0 <;> cases h1 : clearOk 1 <;> cases h2 : clearOk 2 <;>
      simp [clear_clone, clearGo, h0, h1, h2]
  · simp [clone_volume_7mode, hw2]
  · simp [clone_volume_7mode, hw3]

/-- Witness for C2: one Running poll then Failed with a code distinct
from UnknownCloneId, every clone-clear RPC failing: the error is
surfaced and exactly 3 clear attempts are made (then swallowed). -/
theorem claim2_clone_failure_clear_witness :
    ("ESPIPE" : String) ≠ "UnknownCloneId"
  ∧ clone_volume_7mode true
        [CloneStatus.running, CloneStatus.failed "ESPIPE" "boom"]
        (fun _ => false)
      = some (Except.error ⟨"ESPIPE", "boom"⟩, 3) := by
  have h := claim2_clone_failure_clear 1 "ESPIPE" "boom" "gone"
    (fun _ => false) (by decide)
  refine ⟨by decide, ?_⟩
  have h1 := h.1
  simpa [clear_clone, clearGo] using h1

/-- C6 (amended): a share is cleaned iff the floored percentage
`int((available / total) * 100)` is at most the start threshold, which
for positive total is equivalent to `available * 100 < total * (start + 1)`
— strictly weaker than the claimed `available/total*100 <= start`; and
the computed deficit is the floored `int(stop * total / 100)` minus the
available bytes.  The spec example (15000 of 100000 available, start 20,
stop 40) yields 15 percent, triggers cleaning, and a deficit of 25000. -/
theorem claim6_threshold_arithmetic (start stop : Int) (total avl : Nat)
    (htotal : 0 < total) :
    (share_needs_cleaning start total avl = true
        ↔ (avl : Int) * 100 < (total : Int) * (start + 1))
  ∧ bytes_to_free stop total avl = stop * (total : Int) / 100 - (avl : Int)
  ∧ avl_percent 100000 15000 = 15
  ∧ share_needs_cleaning 20 100000 15000 = true
  ∧ bytes_to_free 40 100000 15000 = 25000 := by
  have htq : (0 : ℚ) < (total : ℚ) := by exact_mod_cast htotal
  have hperc : ∀ a b : Nat, 0 < b →
      (avl_percent b a ≤ start ↔ (a : Int) * 100 < (b : Int) * (start + 1)) := by
    intro a b hb
    have hbq : (0 : ℚ) < (b : ℚ) := by exact_mod_cast hb
    rw [avl_percent,
      show ((a : ℚ) / (b : ℚ)) * 100 = ((a : ℚ) * 100) / (b : ℚ) by ring]
    constructor
    · intro h
      have h2 : ⌊((a : ℚ) * 100) / (b : ℚ)⌋ < start + 1 := by omega
      have h3 := Int.floor_lt.mp h2
      have h4 := (div_lt_iff₀ hbq).mp h3
      have h5 : (a : ℚ) * 100 < (b : ℚ) * ((start : ℚ) + 1) := by
        push_cast at h4 ⊢
        nlinarith [h4]
      exact_mod_cast h5
    · intro h
      have h5 : (a : ℚ) * 100 < (b : ℚ) * ((start : ℚ) + 1) := by
        exact_mod_cast h
      have h3 : ((a : ℚ) * 100) / (b : ℚ) < ((start + 1 : Int) : ℚ) := by
        rw [div_lt_iff₀ hbq]
        push_cast
        nlinarith [h5]
      have h2 := Int.floor_lt.mpr h3
      omega
  have hfloor15 : avl_percent 100000 15000 = 15 := by
    rw [avl_percent,
      show (((15000 : Nat) : ℚ) / ((100000 : Nat) : ℚ)) * 100 = ((15 : Int) : ℚ)
        by norm_num]
    exact Int.floor_intCast 15
  have hts : ∀ st : Int, ∀ b : Nat,
      threshold_size st b = st * (b : Int) / 100 := by
    intro st b
    rw [threshold_size,
      show ((st : ℚ) * (b : ℚ)) / 100 = ((st * (b : Int) : Int) : ℚ) / (((100 : Nat) : ℕ) : ℚ)
        by push_cast; ring]
    rw [Rat.floor_intCast_div_natCast]
    norm_num
  refine ⟨?_, ?_, hfloor15, ?_, ?_⟩
  · rw [share_needs_cleaning, decide_eq_true_iff]
    exact hperc avl total htotal
  · rw [bytes_to_free, hts]
  · rw [share_needs_cleaning, decide_eq_true_iff, hfloor15]
    norm_num
  · rw [bytes_to_free, hts]
    norm_num

/-- Counterexample for C6: with total 100000, available 20500 and start
threshold 20, the exact percentage is 20.5, strictly above the start
threshold, yet the code floors it to 20 and cleans the share — the
cleaning condition is not `available/total*100 <= start` as claimed. -/
theorem claim6_counterexample :
    share_needs_cleaning 20 100000 20500 = true
  ∧ ¬ (((20500 : ℚ) / (100000 : ℚ)) * 100 ≤ (20 : ℚ)) := by
  constructor
  · have hfloor : avl_percent 100000 20500 = 20 := by
      rw [avl_percent,
        show (((20500 : Nat) : ℚ) / ((100000 : Nat) : ℚ)) * 100 = 41 / 2 by norm_num]
      rw [Int.floor_eq_iff]
      norm_num
    rw [share_needs_cleaning, decide_eq_true_iff, hfloor]
  · norm_num

/-- Witness for C6 at the spec example inputs. -/
theorem claim6_threshold_arithmetic_witness :
    (0 : Nat) < 100000
  ∧ (share_needs_cleaning 20 100000 15000 = true
      ↔ (15000 : Int) * 100 < (100000 : Int) * (20 + 1))
  ∧ bytes_to_free 40 100000 15000 = 40 * (100000 : Int) / 100 - (15000 : Int) :=
  ⟨by norm_num,
   (claim6_threshold_arithmetic 20 40 100000 15000 (by norm_num)).1,
   (claim6_threshold_arithmetic 20 40 100000 15000 (by norm_num)).2.1⟩

/-- A cache-branch run that ends with `cloned = true` broke out of the
loop at one of the cache entries: the final `share` variable is that
entry's share. -/
theorem cacheLoop_ok_true (env : CloneImageEnv) (vn : String) (size : Int) :
    ∀ (l : List (String × String)) (sh0 sh : Option String),
      cacheLoop env vn size l sh0 = Except.ok (true, sh) →
      ∃ s, sh = some s ∧ s ∈ l.map Prod.fst := by
  intro l
  induction l with
  | nil =>
    intro sh0 sh h
    simp [cacheLoop] at h
  | cons p rest ih =>
    intro sh0 sh h
    obtain ⟨s, f⟩ := p
    have hmem : ∀ s2 : String, s2 ∈ rest.map Prod.fst →
        s2 ∈ ((s, f) :: rest).map Prod.fst := by
      intro s2 h2
      simp only [List.map_cons, List.mem_cons]
      exact Or.inr h2
    simp only [cacheLoop] at h
    by_cases hs : s ≠ ""
    · rw [if_pos hs] at h
      cases helig : env.is_share_eligible s size with
      | error e =>
        rw [helig] at h
        simp at h
      | ok b =>
        rw [helig] at h
        cases b
        · obtain ⟨s2, h1, h2⟩ := ih _ _ h
          exact ⟨s2, h1, hmem s2 h2⟩
        · cases hmp : env.mount_point s with
          | error e =>
            rw [hmp] at h
            obtain ⟨s2, h1, h2⟩ := ih _ _ h
            exact ⟨s2, h1, hmem s2 h2⟩
          | ok dir =>
            rw [hmp] at h
            cases hcl : env.do_clone_rel f vn s with
            | error e =>
              rw [hcl] at h
              obtain ⟨s2, h1, h2⟩ := ih _ _ h
              exact ⟨s2, h1, hmem s2 h2⟩
            | ok u =>
              rw [hcl] at h
              simp only [Except.ok.injEq, Prod.mk.injEq] at h
              exact ⟨s, h.2.symm, by simp⟩
    · rw [if_neg hs] at h
      obtain ⟨s2, h1, h2⟩ := ih _ _ h
      exact ⟨s2, h1, hmem s2 h2⟩

/-- A direct-branch run that ends with `cloned = true` used the
cloneable share: the final `share` variable is exactly that share. -/
theorem directBranch_ok_true (env : CloneImageEnv) (size : Int)
    (sh : Option String) :
    directBranch env size = Except.ok (true, sh) →
    ∃ s, sh = some s ∧ env.cloneable_share = some s := by
  intro h
  rw [directBranch] at h
  split at h
  · simp at h
  · rename_i s heq
    refine ⟨s, ?_, heq⟩
    repeat (any_goals split at h)
    all_goals simp_all

/-- C9: `clone_image` always returns the pair dict-and-flag: the
bootable flag is true on every path (including every caught exception
path), the provider location is null whenever the cloned flag is false,
and whenever the cloned flag is true the provider location is the
chosen share — a share from the cache lookup result or the cloneable
share of the direct branch. -/
theorem claim9_clone_image_total (env : CloneImageEnv) (vn : String)
    (size : Int) :
    (clone_image env vn size).1.bootable = true
  ∧ ((clone_image env vn size).2 = false →
      (clone_image env vn size).1.provider_location = none)
  ∧ ((clone_image env vn size).2 = true →
      ∃ s, (clone_image env vn size).1.provider_location = some s
        ∧ (s ∈ env.cache_result.map Prod.fst ∨ env.cloneable_share = some s)) := by
  by_cases hne : env.cache_result = []
  · cases hb : directBranch env size with
    | ok cs =>
      obtain ⟨c, s⟩ := cs
      have hr : clone_image env vn size = (⟨if c then s else none, true⟩, c) := by
        simp [clone_image, hne, hb]
      rw [hr]
      refine ⟨rfl, ?_, ?_⟩
      · intro hc
        have hc2 : c = false := hc
        simp [hc2]
      · intro hc
        have hc2 : c = true := hc
        subst hc2
        obtain ⟨s2, hs1, hs2⟩ := directBranch_ok_true env size s hb
        exact ⟨s2, by simp [hs1], Or.inr hs2⟩
    | error s =>
      have hr : clone_image env vn size = (⟨none, true⟩, false) := by
        simp [clone_image, hne, hb]
      rw [hr]
      exact ⟨rfl, fun _ => rfl, fun hc => by cases hc⟩
  · cases hb : cacheLoop env vn size env.cache_result none with
    | ok cs =>
      obtain ⟨c, s⟩ := cs
      have hr : clone_image env vn size = (⟨if c then s else none, true⟩, c) := by
        simp [clone_image, hne, hb]
      rw [hr]
      refine ⟨rfl, ?_, ?_⟩
      · intro hc
        have hc2 : c = false := hc
        simp [hc2]
      · intro hc
        have hc2 : c = true := hc
        subst hc2
        obtain ⟨s2, hs1, hs2⟩ := cacheLoop_ok_true env vn size env.cache_result none s hb
        exact ⟨s2, by simp [hs1], Or.inl hs2⟩
    | error s =>
      have hr : clone_image env vn size = (⟨none, true⟩, false) := by
        simp [clone_image, hne, hb]
      rw [hr]
      exact ⟨rfl, fun _ => rfl, fun hc => by cases hc⟩

/-- A concrete collaborator environment for the C9 witness: one cache
entry on share sh1, every collaborator succeeding, post-clone
validation succeeding. -/
def env0 : CloneImageEnv where
  cache_result := [("sh1", "f1")]
  is_share_eligible := fun _ _ => Except.ok true
  mount_point := fun _ => Except.ok "/mnt/sh1"
  do_clone_rel := fun _ _ _ => Except.ok ()
  post_img_clone := fun _ => true
  cloneable_share := none
  src_format := Except.ok "raw"
  clone_volume_call := Except.ok ()
  convert := Except.ok ()
  converted_format := Except.ok "raw"

/-- Witness for C9: in `env0` the clone succeeds and the theorem yields
the chosen share for the returned provider location. -/
theorem claim9_clone_image_total_witness :
    (clone_image env0 "vol" 1).2 = true
  ∧ (clone_image env0 "vol" 1).1.bootable = true
  ∧ ∃ s, (clone_image env0 "vol" 1).1.provider_location = some s
      ∧ (s ∈ env0.cache_result.map Prod.fst ∨ env0.cloneable_share = some s) := by
  have hc : (clone_image env0 "vol" 1).2 = true := by
    simp [clone_image, env0, cacheLoop]
  exact ⟨hc, (claim9_clone_image_total env0 "vol" 1).1,
    (claim9_clone_image_total env0 "vol" 1).2.2 hc⟩
